import Mathlib

/-!
Shallow embedding of the shopping-list aggregation and quantity-normalization
core of the recepten-app repository (the shopping-list page, the quantity
utilities, and the persisted-data normalization), together with theorems
settling the frozen claims.

Modelling conventions:
* Numeric amounts are modelled over `ℚ`: every JavaScript number appearing in
  the claims is a finite double whose decimal value is represented exactly,
  and the `Number.isFinite` guards of the source collapse (every rational is
  finite).
* `String.prototype.trim`/`toLowerCase` are modelled by structurally
  recursive character-list functions `jsTrim`/`jsToLower`.
* Locale-dependent collaborators (`Intl.NumberFormat`,
  `String.prototype.localeCompare`, `new Date(...)` parsing) are modelled as
  explicit function parameters (`fmt`, `cmp`, `parseDate`), since their
  behaviour is environment-defined.
* `Array.prototype.sort` (a stable comparator sort) is modelled by the
  stable `List.insertionSort` on the relation "comparator does not say
  greater".
* JavaScript `Set` objects are modelled as `Finset String`.
-/

/-- JavaScript `String.prototype.trim`: drop whitespace from both ends. -/
def jsTrim (s : String) : String :=
  String.mk (((s.data.dropWhile Char.isWhitespace).reverse.dropWhile Char.isWhitespace).reverse)

/-- JavaScript `String.prototype.toLowerCase` (restricted to the simple
per-character lowercasing that the ingredient data exercises). -/
def jsToLower (s : String) : String := String.mk (s.data.map Char.toLower)

/-- JavaScript `Math.round`: round half toward positive infinity. -/
def jsRound (q : ℚ) : ℤ := ⌊q + 1/2⌋

/-- From the quantity utility: `roundToStep(value, step)` returns `value`
unchanged for a non-positive step, else `Math.round(value / step) * step`. -/
def roundToStep (value step : ℚ) : ℚ :=
  if step ≤ 0 then value else (jsRound (value / step) : ℚ) * step

/-- `Number.parseFloat(x.toFixed(6))`: decimal rounding to six fractional
digits, ties toward the larger value, as specified for `toFixed`. -/
def toFixed6 (q : ℚ) : ℚ := (jsRound (q * 1000000) : ℚ) / 1000000

inductive UnitCategory where
  | weight
  | volume
  | count
  | other
deriving DecidableEq, Repr

/-- The fixed weight-unit membership set of the quantity utility. -/
def WEIGHT_UNITS : List String := ["g", "gram", "gr", "kg", "kilo"]

/-- The fixed volume-unit membership set of the quantity utility. -/
def VOLUME_UNITS : List String := ["ml", "milliliter", "l", "liter"]

/-- The fixed count-unit membership set of the quantity utility; the empty
string counts as a count unit. -/
def COUNT_UNITS : List String :=
  ["", "stuk", "stuks", "teen", "teentje", "teentjes", "blad", "bladen",
   "blik", "blikje", "blikjes", "ui", "uien"]

/-- Remove every period character, modelling `replace(/\./g, "")`. -/
def stripDots (s : String) : String := String.mk (s.data.filter (fun c => c ≠ '.'))

/-- `normalizeUnit`: trim, lowercase, strip periods. -/
def normalizeUnit (unit : String) : String := stripDots (jsToLower (jsTrim unit))

/-- `classifyUnit`: map a free-text unit string to its semantic category. -/
def classifyUnit (unit : String) : UnitCategory :=
  let normalized := normalizeUnit unit
  if WEIGHT_UNITS.contains normalized then UnitCategory.weight
  else if VOLUME_UNITS.contains normalized then UnitCategory.volume
  else if COUNT_UNITS.contains normalized then UnitCategory.count
  else UnitCategory.other

/-- `getMaxFractionDigits`: maximum fraction digits used for display. -/
def getMaxFractionDigits (category : UnitCategory) (normalizedUnit : String) : Nat :=
  match category with
  | UnitCategory.weight => if normalizedUnit == "kg" || normalizedUnit == "kilo" then 3 else 0
  | UnitCategory.volume => if normalizedUnit == "l" || normalizedUnit == "liter" then 2 else 0
  | UnitCategory.count => 1
  | UnitCategory.other => 1

structure HumanQuantity where
  rawAmount : ℚ
  roundedAmount : ℚ
  unit : String
  category : UnitCategory
  isApproximate : Bool
  displayNumber : String
  displayWithApprox : String
  displayWithUnit : String
deriving DecidableEq, Repr

/-- `toHumanQuantity(amount, unit, locale)`.  The parameter `fmt` models the
`Intl.NumberFormat` collaborator used by `formatNumber`: it receives the
rounded amount and the maximum number of fraction digits and produces the
locale-formatted number string. -/
def toHumanQuantity (fmt : ℚ → Nat → String) (amount : ℚ) (unit : String) : HumanQuantity :=
  let safeAmount := amount
  let trimmedUnit := jsTrim unit
  let normalizedUnit := normalizeUnit unit
  let category := classifyUnit unit
  let preRounded : ℚ :=
    match category with
    | UnitCategory.weight =>
        let multiplier : ℚ := if normalizedUnit == "kg" || normalizedUnit == "kilo" then 1000 else 1
        roundToStep (safeAmount * multiplier) 5 / multiplier
    | UnitCategory.volume =>
        let multiplier : ℚ := if normalizedUnit == "l" || normalizedUnit == "liter" then 1000 else 1
        roundToStep (safeAmount * multiplier) 10 / multiplier
    | UnitCategory.count =>
        let nearestInteger : ℤ := jsRound safeAmount
        let snapped : ℚ :=
          if |safeAmount - (nearestInteger : ℚ)| ≤ 15/100 then (nearestInteger : ℚ)
          else roundToStep safeAmount (1/2)
        if 0 < safeAmount ∧ snapped < 1 then 1 else snapped
    | UnitCategory.other => (jsRound (safeAmount * 10) : ℚ) / 10
  let roundedAmount := toFixed6 preRounded
  let isApproximate : Bool :=
    decide (0 < safeAmount ∧ 1/10 < |roundedAmount - safeAmount| / safeAmount)
  let displayNumber := fmt roundedAmount (getMaxFractionDigits category normalizedUnit)
  let displayWithApprox := (if isApproximate then "± " else "") ++ displayNumber
  let displayWithUnit :=
    if 0 < trimmedUnit.length then displayWithApprox ++ " " ++ trimmedUnit else displayWithApprox
  { rawAmount := safeAmount
    roundedAmount := roundedAmount
    unit := trimmedUnit
    category := category
    isApproximate := isApproximate
    displayNumber := displayNumber
    displayWithApprox := displayWithApprox
    displayWithUnit := displayWithUnit }

inductive MealType where
  | lunch
  | dinner
  | other
deriving DecidableEq, Repr

/-- `MEAL_TYPE_ORDER`: the fixed meal-type sort order. -/
def mealTypeOrder : MealType → Nat
  | MealType.lunch => 0
  | MealType.dinner => 1
  | MealType.other => 2

/-- The string form of a meal type, as it appears inside id strings. -/
def mealTypeKey : MealType → String
  | MealType.lunch => "lunch"
  | MealType.dinner => "dinner"
  | MealType.other => "other"

structure Ingredient where
  name : String
  amount : ℚ
  unit : String
deriving DecidableEq, Repr

structure Recipe where
  id : String
  title : String
  baseServings : ℚ
  ingredients : List Ingredient
deriving DecidableEq, Repr

structure MealPlanEntry where
  date : String
  mealType : MealType
  recipeId : String
  servings : ℚ
deriving DecidableEq, Repr

structure MealIngredient where
  id : String
  normalizedKey : String
  name : String
  unit : String
  amount : ℚ
deriving DecidableEq, Repr

structure MealGroup where
  id : String
  date : String
  mealType : MealType
  recipeId : String
  title : String
  servings : ℚ
  ingredients : List MealIngredient
deriving DecidableEq, Repr

/-- `getNormalizedIngredientKey`: lowercased, trimmed name and unit joined
by `"::"`. -/
def getNormalizedIngredientKey (i : Ingredient) : String :=
  jsTrim (jsToLower i.name) ++ "::" ++ jsTrim (jsToLower i.unit)

/-- `getMealGroupId`: `date::mealType::recipeId`. -/
def getMealGroupId (entry : MealPlanEntry) : String :=
  entry.date ++ "::" ++ mealTypeKey entry.mealType ++ "::" ++ entry.recipeId

/-- `getMealIngredientId`: `groupId::normalizedKey`. -/
def getMealIngredientId (groupId normalizedKey : String) : String :=
  groupId ++ "::" ++ normalizedKey

/-- `resolveIngredientAmount`: a finite positive amount is kept, anything
else becomes 1. -/
def resolveIngredientAmount (amount : ℚ) : ℚ :=
  if 0 < amount then amount else 1

/-- `new Map(recipes.map(r => [r.id, r])).get(id)`: on duplicate ids a
JavaScript `Map` keeps the last binding, which the left fold reproduces. -/
def recipeLookup (recipes : List Recipe) (id : String) : Option Recipe :=
  recipes.foldl (fun acc r => if r.id == id then some r else acc) none

/-- The in-place amount update applied to an already-present map entry when
a duplicate normalized key is merged. -/
def updAmount (key : String) (scaledAmount : ℚ) (m : MealIngredient) : MealIngredient :=
  if m.normalizedKey == key then { m with amount := m.amount + scaledAmount } else m

/-- One step of the `ingredientMap` construction inside `mealGroups`: merge
one recipe ingredient into the accumulated (insertion-ordered) map. -/
def insertIngredient (groupId : String) (scaling : ℚ) (acc : List MealIngredient)
    (ingredient : Ingredient) : List MealIngredient :=
  let normalizedKey := getNormalizedIngredientKey ingredient
  let scaledAmount := resolveIngredientAmount ingredient.amount * scaling
  if acc.any (fun m => m.normalizedKey == normalizedKey) then
    acc.map (updAmount normalizedKey scaledAmount)
  else
    acc ++ [{ id := getMealIngredientId groupId normalizedKey
              normalizedKey := normalizedKey
              name := ingredient.name
              unit := ingredient.unit
              amount := scaledAmount }]

/-- The full `ingredientMap` construction: fold a recipe's ingredient list
into an insertion-ordered merged list. -/
def mergeIngredients (groupId : String) (scaling : ℚ) (ingredients : List Ingredient) :
    List MealIngredient :=
  ingredients.foldl (insertIngredient groupId scaling) []

/-- `ingredients.sort((a, b) => a.name.localeCompare(b.name, "nl-NL"))`,
with `cmp` the locale collation; a stable sort is modelled by
`List.insertionSort`. -/
def sortIngredients (cmp : String → String → Ordering) (l : List MealIngredient) :
    List MealIngredient :=
  l.insertionSort (fun a b => cmp a.name b.name ≠ Ordering.gt)

/-- The group comparator of `mealGroups`: date, then meal-type order, then
title, as a "not greater" relation for the stable sort. -/
def groupLE (cmp : String → String → Ordering) (a b : MealGroup) : Prop :=
  if a.date ≠ b.date then cmp a.date b.date ≠ Ordering.gt
  else if mealTypeOrder a.mealType ≠ mealTypeOrder b.mealType then
    mealTypeOrder a.mealType < mealTypeOrder b.mealType
  else cmp a.title b.title ≠ Ordering.gt

instance (cmp : String → String → Ordering) : DecidableRel (groupLE cmp) := by
  intro a b
  unfold groupLE
  infer_instance

/-- One millisecond-counted day, as used by the date arithmetic. -/
def MS_PER_DAY : ℤ := 86400000

/-- `endOfWeek(startDate, { weekStartsOn: 1 })` for a timestamp that is
already a week start: the last millisecond of the following Sunday. -/
def endOfWeekFromStart (weekStart : ℤ) : ℤ := weekStart + 7 * MS_PER_DAY - 1

/-- The `mealGroups` memo of the shopping-list page.  `parseDate` models
`new Date(entry.date).getTime()`; `cmp` models `localeCompare` with the
`"nl-NL"` collation; the `isWithinInterval` bounds are inclusive. -/
def mealGroups (cmp : String → String → Ordering) (parseDate : String → ℤ)
    (recipes : List Recipe) (mealPlan : List MealPlanEntry)
    (startDate endDate : ℤ) : List MealGroup :=
  let groups := mealPlan.foldl (fun acc entry =>
    if ¬ (startDate ≤ parseDate entry.date ∧ parseDate entry.date ≤ endDate) then acc
    else
      match recipeLookup recipes entry.recipeId with
      | none => acc
      | some recipe =>
          let groupId := getMealGroupId entry
          let scaling := entry.servings / recipe.baseServings
          let ingredients := sortIngredients cmp (mergeIngredients groupId scaling recipe.ingredients)
          acc ++ [{ id := groupId
                    date := entry.date
                    mealType := entry.mealType
                    recipeId := entry.recipeId
                    title := recipe.title
                    servings := entry.servings
                    ingredients := ingredients }]) []
  groups.insertionSort (groupLE cmp)

/-- The persisted inclusion state: the two "niet naar Bring" id sets. -/
structure BringInclusionState where
  notToBringMealIds : Finset String
  notToBringIngredientIds : Finset String
deriving DecidableEq

/-- An ingredient row is excluded when its meal is excluded or the
ingredient itself is excluded. -/
def isIngredientNotToBring (st : BringInclusionState) (group : MealGroup)
    (ingredient : MealIngredient) : Bool :=
  decide (group.id ∈ st.notToBringMealIds) || decide (ingredient.id ∈ st.notToBringIngredientIds)

structure MealStat where
  toBring : Nat
  notToBring : Nat
  allNotToBring : Bool
deriving DecidableEq, Repr

/-- The per-group entry of the `mealStats` memo. -/
def mealStat (st : BringInclusionState) (group : MealGroup) : MealStat :=
  let toBring := (group.ingredients.filter (fun i => ¬ isIngredientNotToBring st group i)).length
  let notToBring := (group.ingredients.filter (fun i => isIngredientNotToBring st group i)).length
  { toBring := toBring
    notToBring := notToBring
    allNotToBring := decide (0 < group.ingredients.length) && decide (toBring = 0) }

/-- `toggleMealBringInclusion`: if every ingredient of the group is
excluded, re-include the meal and all its ingredients; otherwise exclude the
meal and all its ingredients. -/
def toggleMealBringInclusion (group : MealGroup) (st : BringInclusionState) :
    BringInclusionState :=
  let shouldBringAll := (mealStat st group).allNotToBring
  if shouldBringAll then
    { notToBringMealIds := st.notToBringMealIds.erase group.id
      notToBringIngredientIds :=
        group.ingredients.foldl (fun s i => s.erase i.id) st.notToBringIngredientIds }
  else
    { notToBringMealIds := insert group.id st.notToBringMealIds
      notToBringIngredientIds :=
        group.ingredients.foldl (fun s i => insert i.id s) st.notToBringIngredientIds }

/-- `toggleIngredientBringInclusion`: flip one ingredient id, then re-derive
the meal flag from whether every ingredient of the group is now excluded. -/
def toggleIngredientBringInclusion (group : MealGroup) (ingredient : MealIngredient)
    (st : BringInclusionState) : BringInclusionState :=
  let nextIngredientIds :=
    if ingredient.id ∈ st.notToBringIngredientIds then
      st.notToBringIngredientIds.erase ingredient.id
    else insert ingredient.id st.notToBringIngredientIds
  let allIngredientsNotToBring :=
    group.ingredients.all (fun item => decide (item.id ∈ nextIngredientIds))
  let nextMealIds :=
    if allIngredientsNotToBring then insert group.id st.notToBringMealIds
    else st.notToBringMealIds.erase group.id
  { notToBringMealIds := nextMealIds
    notToBringIngredientIds := nextIngredientIds }

structure BringShareItem where
  name : String
  unit : String
  amount : ℚ
deriving DecidableEq, Repr

/-- One merge step of the cross-meal `bringItems` aggregation, keyed by the
normalized ingredient key. -/
def addBringItem (acc : List (String × BringShareItem)) (i : MealIngredient) :
    List (String × BringShareItem) :=
  if acc.any (fun p => p.1 == i.normalizedKey) then
    acc.map (fun p =>
      if p.1 == i.normalizedKey then (p.1, { p.2 with amount := p.2.amount + i.amount }) else p)
  else acc ++ [(i.normalizedKey, { name := i.name, unit := i.unit, amount := i.amount })]

/-- The `bringItems` memo: every non-excluded ingredient row of every meal
group, aggregated across meals by normalized key and sorted by name. -/
def bringItems (cmp : String → String → Ordering) (groups : List MealGroup)
    (st : BringInclusionState) : List BringShareItem :=
  let aggregated := groups.foldl (fun acc group =>
    group.ingredients.foldl (fun acc i =>
      if isIngredientNotToBring st group i then acc else addBringItem acc i) acc) []
  (aggregated.map Prod.snd).insertionSort (fun a b => cmp a.name b.name ≠ Ordering.gt)

structure BringSharePayloadItem where
  name : String
  amount : ℚ
  unit : String
deriving DecidableEq, Repr

structure BringSharePayload where
  title : String
  items : List BringSharePayloadItem
  servings : ℚ
  sourceWeekStart : String
deriving DecidableEq, Repr

/-- The observable outcome of `handleSendToBring` up to the external publish
call: `skipped` models the early return outside firebase mode, `failed`
models a thrown error surfaced before publishing, and `published payload`
models handing `payload` to the `createBringShareSnapshot` collaborator. -/
inductive SendOutcome where
  | skipped
  | failed (message : String)
  | published (payload : BringSharePayload)
deriving DecidableEq, Repr

/-- `handleSendToBring`: outside firebase mode nothing happens; with no
included items it throws before the publish call; otherwise the rounded
payload is handed to the share collaborator.  `localizedStart` models
`startDate.toLocaleDateString("nl-NL")` and `weekStartIso` models
`startDate.toISOString()`. -/
def handleSendToBring (cmp : String → String → Ordering) (fmt : ℚ → Nat → String)
    (mode localizedStart weekStartIso : String) (groups : List MealGroup)
    (st : BringInclusionState) : SendOutcome :=
  if mode ≠ "firebase" then SendOutcome.skipped
  else
    let items := bringItems cmp groups st
    if items.length = 0 then
      SendOutcome.failed "Er zijn geen ingredienten ingesteld op \x27Naar Bring\x27."
    else
      SendOutcome.published
        { title := "Boodschappen " ++ localizedStart
          items := items.map (fun item =>
            { name := item.name
              amount := (toHumanQuantity fmt item.amount item.unit).roundedAmount
              unit := item.unit })
          servings := 1
          sourceWeekStart := weekStartIso }

/-- The `baseServings` clause of `normalizeRecipe`: a persisted value is
accepted only when it is a number greater than 0, otherwise the default 2 is
used; `none` models a missing or non-numeric field. -/
def normalizeBaseServings (value : Option ℚ) : ℚ :=
  match value with
  | some v => if 0 < v then v else 2
  | none => 2

/-- Number of entries of a merged ingredient list carrying a given
normalized key. -/
def keyCount (l : List MealIngredient) (k : String) : Nat :=
  (l.filter (fun m => m.normalizedKey == k)).length

/-- Total amount carried by a given normalized key in a merged list. -/
def keyAmount (l : List MealIngredient) (k : String) : ℚ :=
  ((l.filter (fun m => m.normalizedKey == k)).map (fun m => m.amount)).sum

/-- Total scaled contribution of a recipe's ingredient list to a given
normalized key. -/
def scaledContribution (scaling : ℚ) (l : List Ingredient) (k : String) : ℚ :=
  ((l.filter (fun i => getNormalizedIngredientKey i == k)).map
    (fun i => resolveIngredientAmount i.amount * scaling)).sum

/-! ## Concrete fixtures used by counterexamples and witnesses -/

/-- The degenerate collation that compares everything equal; a legal
instantiation of `localeCompare` under which the stable sorts are the
identity. -/
def eqCollation : String → String → Ordering := fun _ _ => Ordering.eq

/-- The empty inclusion state: nothing excluded. -/
def emptyInclusion : BringInclusionState := { notToBringMealIds := ∅, notToBringIngredientIds := ∅ }

def wIngA : MealIngredient :=
  { id := "g1::ka", normalizedKey := "ka", name := "A", unit := "", amount := 1 }

def wIngB : MealIngredient :=
  { id := "g1::kb", normalizedKey := "kb", name := "B", unit := "", amount := 1 }

def wIngC : MealIngredient :=
  { id := "g1::kc", normalizedKey := "kc", name := "C", unit := "", amount := 1 }

/-- A three-ingredient meal group. -/
def wGroup3 : MealGroup :=
  { id := "g1", date := "2024-01-01", mealType := MealType.dinner, recipeId := "r1",
    title := "T1", servings := 2, ingredients := [wIngA, wIngB, wIngC] }

/-- A one-ingredient meal group. -/
def wGroup1 : MealGroup :=
  { id := "g2", date := "2024-01-02", mealType := MealType.lunch, recipeId := "r2",
    title := "T2", servings := 2, ingredients := [wIngA] }

/-- A meal group with an empty ingredient list. -/
def wGroupEmpty : MealGroup :=
  { id := "g0", date := "2024-01-03", mealType := MealType.other, recipeId := "r0",
    title := "T0", servings := 2, ingredients := [] }

/-- A recipe with a negative `baseServings`, bypassing `normalizeRecipe`. -/
def c1recipe : Recipe :=
  { id := "r1", title := "T", baseServings := -1,
    ingredients := [{ name := "x", amount := 3, unit := "g" }] }

/-- A meal-plan entry resolving to `c1recipe` with 2 servings. -/
def c1entry : MealPlanEntry :=
  { date := "2024-01-01", mealType := MealType.dinner, recipeId := "r1", servings := 2 }

/-- A meal-plan entry whose recipe id matches no recipe in the catalog. -/
def danglingEntry : MealPlanEntry :=
  { date := "2024-01-01", mealType := MealType.dinner, recipeId := "zzz", servings := 2 }

/-- Two case-different spellings of the same ingredient. -/
def ingUiLower : Ingredient := { name := "ui", amount := 1, unit := "stuk" }

def ingUiUpper : Ingredient := { name := "Ui", amount := 2, unit := "stuk" }

/-- An inclusion state in which `wGroup1` is meal-level excluded. -/
def stGroup1Excluded : BringInclusionState :=
  { notToBringMealIds := insert "g2" ∅, notToBringIngredientIds := ∅ }

/-! ## Quantity Normalizer lemmas -/

lemma toHumanQuantity_weight_roundedAmount (fmt : ℚ → Nat → String) (amount : ℚ) (unit : String)
    (h : classifyUnit unit = UnitCategory.weight)
    (hk : (normalizeUnit unit == "kg" || normalizeUnit unit == "kilo") = false) :
    (toHumanQuantity fmt amount unit).roundedAmount = toFixed6 (roundToStep amount 5) := by
  simp [toHumanQuantity, h, hk]

lemma toHumanQuantity_count_roundedAmount (fmt : ℚ → Nat → String) (amount : ℚ) (unit : String)
    (h : classifyUnit unit = UnitCategory.count) :
    (toHumanQuantity fmt amount unit).roundedAmount =
      toFixed6 (
        if 0 < amount ∧
            (if |amount - (jsRound amount : ℚ)| ≤ 15/100 then (jsRound amount : ℚ)
             else roundToStep amount (1/2)) < 1 then 1
        else
          (if |amount - (jsRound amount : ℚ)| ≤ 15/100 then (jsRound amount : ℚ)
           else roundToStep amount (1/2))) := by
  simp [toHumanQuantity, h]

lemma toHumanQuantity_isApproximate_def (fmt : ℚ → Nat → String) (amount : ℚ) (unit : String) :
    (toHumanQuantity fmt amount unit).isApproximate =
      decide (0 < amount ∧
        1/10 < |(toHumanQuantity fmt amount unit).roundedAmount - amount| / amount) := rfl

lemma toHumanQuantity_displayWithApprox_def (fmt : ℚ → Nat → String) (amount : ℚ) (unit : String) :
    (toHumanQuantity fmt amount unit).displayWithApprox =
      (if (toHumanQuantity fmt amount unit).isApproximate then "± " else "") ++
        (toHumanQuantity fmt amount unit).displayNumber := rfl

/-- C3: the Quantity Normalizer rounds per unit category:
`toHumanQuantity(333, "g")` gives rounded amount 335 (nearest 5 in grams);
`toHumanQuantity(0.2, "stuk")` gives rounded amount 1 (a positive raw
amount that rounds below 1 is floor-clamped to 1); `toHumanQuantity(2.3,
"stuk")` gives rounded amount 2.5 (more than 0.15 from the nearest integer,
so rounded to the nearest 0.5) — for every number formatter. -/
theorem toHumanQuantity_rounding_examples (fmt : ℚ → Nat → String) :
    (toHumanQuantity fmt 333 "g").roundedAmount = 335 ∧
    (toHumanQuantity fmt (2/10) "stuk").roundedAmount = 1 ∧
    (toHumanQuantity fmt (23/10) "stuk").roundedAmount = 2.5 := by
  refine ⟨?_, ?_, ?_⟩
  · rw [toHumanQuantity_weight_roundedAmount fmt 333 "g" (by decide) (by decide)]
    norm_num [toFixed6, roundToStep, jsRound, abs_of_nonneg, abs_of_nonpos]
  · rw [toHumanQuantity_count_roundedAmount fmt (2/10) "stuk" (by decide)]
    norm_num [toFixed6, roundToStep, jsRound, abs_of_nonneg, abs_of_nonpos]
  · rw [toHumanQuantity_count_roundedAmount fmt (23/10) "stuk" (by decide)]
    norm_num [toFixed6, roundToStep, jsRound, abs_of_nonneg, abs_of_nonpos]

/-- C3 witness: the three rounding examples evaluated at a concrete
formatter. -/
theorem toHumanQuantity_rounding_examples_witness :
    (toHumanQuantity (fun _ _ => "") 333 "g").roundedAmount = 335 ∧
    (toHumanQuantity (fun _ _ => "") (2/10) "stuk").roundedAmount = 1 ∧
    (toHumanQuantity (fun _ _ => "") (23/10) "stuk").roundedAmount = 2.5 :=
  toHumanQuantity_rounding_examples (fun _ _ => "")

/-- C4 counterexample: at `toHumanQuantity(0.2, "stuk")` the quantity is
approximate (rounding 0.2 up to 1 changes it by more than 10%), yet the
approximate display string is the number prefixed with `"± "`, not with
`"≈"` as the claim states. -/
theorem toHumanQuantity_approx_marker_counterexample :
    ((toHumanQuantity (fun _ _ => "1") (2/10) "stuk").isApproximate = true) ∧
    (toHumanQuantity (fun _ _ => "1") (2/10) "stuk").displayWithApprox = "± 1" ∧
    (toHumanQuantity (fun _ _ => "1") (2/10) "stuk").displayWithApprox ≠
      "≈" ++ (toHumanQuantity (fun _ _ => "1") (2/10) "stuk").displayNumber := by
  have hr : (toHumanQuantity (fun _ _ => "1") (2/10) "stuk").roundedAmount = 1 := by
    rw [toHumanQuantity_count_roundedAmount _ (2/10) "stuk" (by decide)]
    norm_num [toFixed6, roundToStep, jsRound, abs_of_nonneg, abs_of_nonpos]
  have ha : (toHumanQuantity (fun _ _ => "1") (2/10) "stuk").isApproximate = true := by
    rw [toHumanQuantity_isApproximate_def, hr]
    simp only [decide_eq_true_eq]
    norm_num [abs_of_nonneg]
  have hd : (toHumanQuantity (fun _ _ => "1") (2/10) "stuk").displayWithApprox = "± 1" := by
    rw [toHumanQuantity_displayWithApprox_def, ha]
    decide
  exact ⟨ha, hd, by rw [hd]; decide⟩

/-- C4 (amended): for every amount and unit, the display strings are: the
locale-formatted rounded number; that number prefixed with `"± "` (not
`"≈"`) exactly when `isApproximate` holds, where `isApproximate` means
`amount > 0` and `|rounded - raw| / raw > 0.10`; and the number-plus-unit
string, which omits the unit segment when the trimmed unit is empty. -/
theorem toHumanQuantity_display_strings (fmt : ℚ → Nat → String) (amount : ℚ) (unit : String) :
    ((toHumanQuantity fmt amount unit).isApproximate = true ↔
      (0 < amount ∧ 1/10 <
        |(toHumanQuantity fmt amount unit).roundedAmount - amount| / amount)) ∧
    (toHumanQuantity fmt amount unit).displayNumber =
      fmt (toHumanQuantity fmt amount unit).roundedAmount
        (getMaxFractionDigits (classifyUnit unit) (normalizeUnit unit)) ∧
    (toHumanQuantity fmt amount unit).displayWithApprox =
      (if (toHumanQuantity fmt amount unit).isApproximate then "± " else "") ++
        (toHumanQuantity fmt amount unit).displayNumber ∧
    (toHumanQuantity fmt amount unit).displayWithUnit =
      (if 0 < (jsTrim unit).length then
        (toHumanQuantity fmt amount unit).displayWithApprox ++ " " ++ jsTrim unit
      else (toHumanQuantity fmt amount unit).displayWithApprox) := by
  refine ⟨?_, rfl, rfl, rfl⟩
  rw [toHumanQuantity_isApproximate_def]
  exact decide_eq_true_iff

/-! ## Inclusion-State Manager lemmas -/

lemma toggleIngredient_def (g : MealGroup) (ing : MealIngredient) (st : BringInclusionState) :
    toggleIngredientBringInclusion g ing st =
      { notToBringMealIds :=
          if g.ingredients.all (fun item => decide (item.id ∈
              (if ing.id ∈ st.notToBringIngredientIds then st.notToBringIngredientIds.erase ing.id
               else insert ing.id st.notToBringIngredientIds))) then
            insert g.id st.notToBringMealIds
          else st.notToBringMealIds.erase g.id
        notToBringIngredientIds :=
          if ing.id ∈ st.notToBringIngredientIds then st.notToBringIngredientIds.erase ing.id
          else insert ing.id st.notToBringIngredientIds } := rfl

lemma foldl_insert_ids (l : List MealIngredient) (s : Finset String) :
    l.foldl (fun acc i => insert i.id acc) s = s ∪ (l.map (fun i => i.id)).toFinset := by
  induction l generalizing s with
  | nil => simp
  | cons i l ih => simp [List.foldl_cons, ih, Finset.insert_union, Finset.union_insert]

lemma foldl_erase_ids (l : List MealIngredient) (s : Finset String) :
    l.foldl (fun acc i => acc.erase i.id) s = s \ (l.map (fun i => i.id)).toFinset := by
  induction l generalizing s with
  | nil => simp
  | cons i l ih =>
      rw [List.foldl_cons, ih]
      ext x
      simp only [Finset.mem_sdiff, Finset.mem_erase, List.map_cons, List.toFinset_cons,
        Finset.mem_insert, List.mem_toFinset]
      tauto

lemma toggleIngredient_all_iff (g : MealGroup) (ing : MealIngredient) (st : BringInclusionState) :
    g.id ∈ (toggleIngredientBringInclusion g ing st).notToBringMealIds ↔
      ∀ item ∈ g.ingredients,
        item.id ∈ (toggleIngredientBringInclusion g ing st).notToBringIngredientIds := by
  rw [toggleIngredient_def]
  rcases hall : g.ingredients.all (fun item => decide (item.id ∈
      (if ing.id ∈ st.notToBringIngredientIds then st.notToBringIngredientIds.erase ing.id
       else insert ing.id st.notToBringIngredientIds))) with _ | _
  · simp only [hall, if_false]
    constructor
    · intro hmem
      exact absurd (Finset.mem_erase.mp hmem).1 (by simp)
    · intro hforall
      exfalso
      rw [List.all_eq_false] at hall
      obtain ⟨x, hx, hnx⟩ := hall
      exact hnx (by simpa using hforall x hx)
  · simp only [hall, if_true]
    constructor
    · intro _ item hitem
      have := List.all_eq_true.mp hall item hitem
      simpa using this
    · intro _
      exact Finset.mem_insert_self g.id st.notToBringMealIds

lemma toggleIngredient_threeStep (g : MealGroup) (a b c : MealIngredient)
    (st : BringInclusionState)
    (hg : g.ingredients = [a, b, c])
    (ha : a.id ∉ st.notToBringIngredientIds)
    (hb : b.id ∉ st.notToBringIngredientIds)
    (hc : c.id ∉ st.notToBringIngredientIds)
    (hab : a.id ≠ b.id) (hac : a.id ≠ c.id) (hbc : b.id ≠ c.id) :
    (g.id ∈ (toggleIngredientBringInclusion g c (toggleIngredientBringInclusion g b
        (toggleIngredientBringInclusion g a st))).notToBringMealIds) ∧
    (a.id ∉ (toggleMealBringInclusion g (toggleIngredientBringInclusion g c
        (toggleIngredientBringInclusion g b
          (toggleIngredientBringInclusion g a st)))).notToBringIngredientIds ∧
     b.id ∉ (toggleMealBringInclusion g (toggleIngredientBringInclusion g c
        (toggleIngredientBringInclusion g b
          (toggleIngredientBringInclusion g a st)))).notToBringIngredientIds ∧
     c.id ∉ (toggleMealBringInclusion g (toggleIngredientBringInclusion g c
        (toggleIngredientBringInclusion g b
          (toggleIngredientBringInclusion g a st)))).notToBringIngredientIds) := by
  have hba : ¬ b.id = a.id := fun h => hab h.symm
  have hca : ¬ c.id = a.id := fun h => hac h.symm
  have hcb : ¬ c.id = b.id := fun h => hbc h.symm
  have hb1 : b.id ∉ insert a.id st.notToBringIngredientIds := by
    simp [Finset.mem_insert, hba, hb]
  have hc2 : c.id ∉ insert b.id (insert a.id st.notToBringIngredientIds) := by
    simp [Finset.mem_insert, hca, hcb, hc]
  have h1 : toggleIngredientBringInclusion g a st =
      ⟨st.notToBringMealIds.erase g.id, insert a.id st.notToBringIngredientIds⟩ := by
    rw [toggleIngredient_def]
    simp [ha, hg, hba, hb]
  have h2 : toggleIngredientBringInclusion g b
      ⟨st.notToBringMealIds.erase g.id, insert a.id st.notToBringIngredientIds⟩ =
      ⟨st.notToBringMealIds.erase g.id,
       insert b.id (insert a.id st.notToBringIngredientIds)⟩ := by
    rw [toggleIngredient_def]
    simp [hb1, hg, hca, hcb, hc, Finset.erase_idem]
  have h3 : toggleIngredientBringInclusion g c
      ⟨st.notToBringMealIds.erase g.id,
       insert b.id (insert a.id st.notToBringIngredientIds)⟩ =
      ⟨insert g.id (st.notToBringMealIds.erase g.id),
       insert c.id (insert b.id (insert a.id st.notToBringIngredientIds))⟩ := by
    rw [toggleIngredient_def]
    simp [hc2, hg, Finset.mem_insert]
  rw [h1, h2, h3]
  have hall3 : (mealStat
      ⟨insert g.id (st.notToBringMealIds.erase g.id),
       insert c.id (insert b.id (insert a.id st.notToBringIngredientIds))⟩ g).allNotToBring =
      true := by
    simp [mealStat, hg, isIngredientNotToBring]
  have h4 : (toggleMealBringInclusion g
      ⟨insert g.id (st.notToBringMealIds.erase g.id),
       insert c.id (insert b.id (insert a.id st.notToBringIngredientIds))⟩).notToBringIngredientIds =
      (insert c.id (insert b.id (insert a.id st.notToBringIngredientIds))) \
        (g.ingredients.map (fun i => i.id)).toFinset := by
    simp only [toggleMealBringInclusion, hall3, if_true]
    rw [foldl_erase_ids]
  refine ⟨by simp, ?_⟩
  rw [h4, hg]
  refine ⟨?_, ?_, ?_⟩ <;> simp [Finset.mem_sdiff]

/-- C2: after any single `toggleIngredient` the group id is excluded iff
every ingredient id of the group is excluded; and after toggling each of
the three (distinct) ingredients of a fully-included 3-ingredient meal
once, the meal id is excluded, and a subsequent `toggleMeal` removes all
three ingredient ids from the excluded-ingredient set. -/
theorem toggleIngredient_meal_state_consistency :
    (∀ (g : MealGroup) (ing : MealIngredient) (st : BringInclusionState),
      g.id ∈ (toggleIngredientBringInclusion g ing st).notToBringMealIds ↔
        ∀ item ∈ g.ingredients,
          item.id ∈ (toggleIngredientBringInclusion g ing st).notToBringIngredientIds) ∧
    (∀ (g : MealGroup) (a b c : MealIngredient) (st : BringInclusionState),
      g.ingredients = [a, b, c] →
      g.id ∉ st.notToBringMealIds →
      a.id ∉ st.notToBringIngredientIds →
      b.id ∉ st.notToBringIngredientIds →
      c.id ∉ st.notToBringIngredientIds →
      a.id ≠ b.id → a.id ≠ c.id → b.id ≠ c.id →
      (g.id ∈ (toggleIngredientBringInclusion g c (toggleIngredientBringInclusion g b
          (toggleIngredientBringInclusion g a st))).notToBringMealIds) ∧
      (a.id ∉ (toggleMealBringInclusion g (toggleIngredientBringInclusion g c
          (toggleIngredientBringInclusion g b
            (toggleIngredientBringInclusion g a st)))).notToBringIngredientIds ∧
       b.id ∉ (toggleMealBringInclusion g (toggleIngredientBringInclusion g c
          (toggleIngredientBringInclusion g b
            (toggleIngredientBringInclusion g a st)))).notToBringIngredientIds ∧
       c.id ∉ (toggleMealBringInclusion g (toggleIngredientBringInclusion g c
          (toggleIngredientBringInclusion g b
            (toggleIngredientBringInclusion g a st)))).notToBringIngredientIds)) :=
  ⟨toggleIngredient_all_iff,
   fun g a b c st hg _ ha hb hc hab hac hbc =>
     toggleIngredient_threeStep g a b c st hg ha hb hc hab hac hbc⟩

/-- C2 witness: the 3-ingredient scenario evaluated on a concrete group and
the empty inclusion state. -/
theorem toggleIngredient_meal_state_consistency_witness :
    (wGroup3.ingredients = [wIngA, wIngB, wIngC] ∧
     wGroup3.id ∉ emptyInclusion.notToBringMealIds ∧
     wIngA.id ∉ emptyInclusion.notToBringIngredientIds ∧
     wIngB.id ∉ emptyInclusion.notToBringIngredientIds ∧
     wIngC.id ∉ emptyInclusion.notToBringIngredientIds ∧
     wIngA.id ≠ wIngB.id ∧ wIngA.id ≠ wIngC.id ∧ wIngB.id ≠ wIngC.id) ∧
    ((wGroup3.id ∈ (toggleIngredientBringInclusion wGroup3 wIngC
        (toggleIngredientBringInclusion wGroup3 wIngB
          (toggleIngredientBringInclusion wGroup3 wIngA emptyInclusion))).notToBringMealIds) ∧
     (wIngA.id ∉ (toggleMealBringInclusion wGroup3 (toggleIngredientBringInclusion wGroup3 wIngC
        (toggleIngredientBringInclusion wGroup3 wIngB
          (toggleIngredientBringInclusion wGroup3 wIngA
            emptyInclusion)))).notToBringIngredientIds ∧
      wIngB.id ∉ (toggleMealBringInclusion wGroup3 (toggleIngredientBringInclusion wGroup3 wIngC
        (toggleIngredientBringInclusion wGroup3 wIngB
          (toggleIngredientBringInclusion wGroup3 wIngA
            emptyInclusion)))).notToBringIngredientIds ∧
      wIngC.id ∉ (toggleMealBringInclusion wGroup3 (toggleIngredientBringInclusion wGroup3 wIngC
        (toggleIngredientBringInclusion wGroup3 wIngB
          (toggleIngredientBringInclusion wGroup3 wIngA
            emptyInclusion)))).notToBringIngredientIds)) :=
  ⟨⟨rfl, by decide, by decide, by decide, by decide, by decide, by decide, by decide⟩,
   toggleIngredient_meal_state_consistency.2 wGroup3 wIngA wIngB wIngC emptyInclusion
     rfl (by decide) (by decide) (by decide) (by decide) (by decide) (by decide) (by decide)⟩

/-- C5: on a nonempty, fully-included meal group, `toggleMeal` excludes the
group id and every ingredient id, and a second `toggleMeal` restores
exactly the original inclusion state. -/
theorem toggleMeal_full_toggle (g : MealGroup) (st : BringInclusionState)
    (hne : g.ingredients ≠ [])
    (hmeal : g.id ∉ st.notToBringMealIds)
    (hing : ∀ i ∈ g.ingredients, i.id ∉ st.notToBringIngredientIds) :
    (g.id ∈ (toggleMealBringInclusion g st).notToBringMealIds ∧
      ∀ i ∈ g.ingredients, i.id ∈ (toggleMealBringInclusion g st).notToBringIngredientIds) ∧
    toggleMealBringInclusion g (toggleMealBringInclusion g st) = st := by
  obtain ⟨meals, ings⟩ := st
  have hlen : g.ingredients.length ≠ 0 := by simpa [List.length_eq_zero] using hne
  have hexcl : ∀ i ∈ g.ingredients, isIngredientNotToBring ⟨meals, ings⟩ g i = false := by
    intro i hi
    simp only [isIngredientNotToBring] at hmeal hing ⊢
    simp [hmeal, hing i hi]
  have hall0 : (mealStat ⟨meals, ings⟩ g).allNotToBring = false := by
    have hfilter : g.ingredients.filter (fun i => ! isIngredientNotToBring ⟨meals, ings⟩ g i) =
        g.ingredients :=
      List.filter_eq_self.mpr (fun i hi => by rw [hexcl i hi]; rfl)
    simp [mealStat, hfilter, hlen]
  have h1 : toggleMealBringInclusion g ⟨meals, ings⟩ =
      ⟨insert g.id meals, ings ∪ (g.ingredients.map (fun i => i.id)).toFinset⟩ := by
    simp [toggleMealBringInclusion, hall0, foldl_insert_ids]
  have hall1 : (mealStat ⟨insert g.id meals,
      ings ∪ (g.ingredients.map (fun i => i.id)).toFinset⟩ g).allNotToBring = true := by
    have hfilter : g.ingredients.filter (fun i => ! isIngredientNotToBring
        ⟨insert g.id meals, ings ∪ (g.ingredients.map (fun i => i.id)).toFinset⟩ g i) = [] := by
      apply List.filter_eq_nil_iff.mpr
      intro i _
      simp [isIngredientNotToBring]
    simp [mealStat, hfilter, Nat.pos_of_ne_zero hlen]
  have hK : (ings ∪ (g.ingredients.map (fun i => i.id)).toFinset) \
      (g.ingredients.map (fun i => i.id)).toFinset = ings := by
    ext x
    simp only [Finset.mem_sdiff, Finset.mem_union, List.mem_toFinset, List.mem_map]
    constructor
    · rintro ⟨hx | hx, hnx⟩
      · exact hx
      · exact absurd hx hnx
    · intro hx
      refine ⟨Or.inl hx, ?_⟩
      rintro ⟨i, hi, rfl⟩
      exact hing i hi hx
  have h2 : toggleMealBringInclusion g ⟨insert g.id meals,
      ings ∪ (g.ingredients.map (fun i => i.id)).toFinset⟩ = ⟨meals, ings⟩ := by
    simp only [toggleMealBringInclusion, hall1, if_true]
    rw [foldl_erase_ids, hK, Finset.erase_insert hmeal]
  refine ⟨?_, by rw [h1, h2]⟩
  rw [h1]
  refine ⟨by simp, fun i hi => ?_⟩
  simp only [Finset.mem_union, List.mem_toFinset, List.mem_map]
  exact Or.inr ⟨i, hi, rfl⟩

/-- C5 witness: the full toggle evaluated on a concrete one-ingredient
group and the empty inclusion state. -/
theorem toggleMeal_full_toggle_witness :
    (wGroup1.ingredients ≠ [] ∧
     wGroup1.id ∉ emptyInclusion.notToBringMealIds ∧
     wIngA.id ∉ emptyInclusion.notToBringIngredientIds) ∧
    (wGroup1.id ∈ (toggleMealBringInclusion wGroup1 emptyInclusion).notToBringMealIds ∧
     wIngA.id ∈ (toggleMealBringInclusion wGroup1 emptyInclusion).notToBringIngredientIds) ∧
    toggleMealBringInclusion wGroup1 (toggleMealBringInclusion wGroup1 emptyInclusion) =
      emptyInclusion :=
  have T := toggleMeal_full_toggle wGroup1 emptyInclusion (by decide) (by decide) (by decide)
  ⟨⟨by decide, by decide, by decide⟩,
   ⟨T.1.1, T.1.2 wIngA (List.mem_singleton.mpr rfl)⟩, T.2⟩

/-- C10: on a meal group with an empty ingredient list, `toggleMeal` always
takes the exclude branch (the fully-excluded test requires at least one
ingredient), adding the group id from any state and leaving the ingredient
set unchanged; hence iterating `toggleMeal` any positive number of times
leaves the group id excluded. -/
theorem toggleMeal_empty_group (g : MealGroup) (st : BringInclusionState)
    (h : g.ingredients = []) :
    toggleMealBringInclusion g st =
      { notToBringMealIds := insert g.id st.notToBringMealIds
        notToBringIngredientIds := st.notToBringIngredientIds } ∧
    ∀ n : ℕ, 0 < n → g.id ∈ ((toggleMealBringInclusion g)^[n] st).notToBringMealIds := by
  have key : ∀ s : BringInclusionState, toggleMealBringInclusion g s =
      { notToBringMealIds := insert g.id s.notToBringMealIds
        notToBringIngredientIds := s.notToBringIngredientIds } := by
    intro s
    simp [toggleMealBringInclusion, mealStat, h]
  refine ⟨key st, ?_⟩
  intro n hn
  rcases n with _ | m
  · exact absurd hn (by simp)
  · rw [Function.iterate_succ_apply', key]
    exact Finset.mem_insert_self _ _

/-- C10 witness: two iterated toggles on a concrete empty group still leave
its id excluded. -/
theorem toggleMeal_empty_group_witness :
    wGroupEmpty.ingredients = [] ∧ 0 < 2 ∧
    wGroupEmpty.id ∈
      ((toggleMealBringInclusion wGroupEmpty)^[2] emptyInclusion).notToBringMealIds :=
  ⟨rfl, by decide, (toggleMeal_empty_group wGroupEmpty emptyInclusion rfl).2 2 (by decide)⟩

/-! ## Ingredient Aggregator theorems -/

/-- C9: a meal-plan entry whose recipe id resolves to no recipe in the
catalog contributes no meal group and no meal ingredients, without error:
removing it from the plan leaves the aggregation output unchanged. -/
theorem mealGroups_dangling_recipe (cmp : String → String → Ordering) (parseDate : String → ℤ)
    (recipes : List Recipe) (pre post : List MealPlanEntry) (entry : MealPlanEntry)
    (s e : ℤ) (h : recipeLookup recipes entry.recipeId = none) :
    mealGroups cmp parseDate recipes (pre ++ entry :: post) s e =
      mealGroups cmp parseDate recipes (pre ++ post) s e := by
  unfold mealGroups
  rw [List.foldl_append, List.foldl_cons, List.foldl_append]
  by_cases hw : s ≤ parseDate entry.date ∧ parseDate entry.date ≤ e
  · simp [hw, h]
  · simp [hw]

/-- C9 witness: a dangling entry in a one-recipe catalog produces the same
output as the empty plan. -/
theorem mealGroups_dangling_recipe_witness :
    recipeLookup [c1recipe] danglingEntry.recipeId = none ∧
    mealGroups eqCollation (fun _ => 0) [c1recipe] ([] ++ danglingEntry :: []) 0
        (endOfWeekFromStart 0) =
      mealGroups eqCollation (fun _ => 0) [c1recipe] ([] ++ []) 0 (endOfWeekFromStart 0) :=
  ⟨by decide,
   mealGroups_dangling_recipe eqCollation (fun _ => 0) [c1recipe] [] [] danglingEntry 0
     (endOfWeekFromStart 0) (by decide)⟩

/-- C8: the 7-day window filter has inclusive bounds: an entry whose parsed
date is the Sunday (six days after the Monday week start) is aggregated,
and an entry one day past that boundary is not. -/
theorem mealGroups_window_boundary (cmp : String → String → Ordering) (parseDate : String → ℤ)
    (s : ℤ) (entry : MealPlanEntry) (r : Recipe) (hid : r.id = entry.recipeId) :
    (parseDate entry.date = s + 6 * MS_PER_DAY →
      (mealGroups cmp parseDate [r] [entry] s (endOfWeekFromStart s)).map (fun g => g.id) =
        [getMealGroupId entry]) ∧
    (parseDate entry.date = s + 7 * MS_PER_DAY →
      mealGroups cmp parseDate [r] [entry] s (endOfWeekFromStart s) = []) := by
  have hlookup : recipeLookup [r] entry.recipeId = some r := by
    simp [recipeLookup, hid]
  constructor
  · intro hd
    have hw : s ≤ parseDate entry.date ∧ parseDate entry.date ≤ endOfWeekFromStart s := by
      rw [hd]
      unfold endOfWeekFromStart MS_PER_DAY
      omega
    unfold mealGroups
    simp only [List.foldl_cons, List.foldl_nil, hlookup]
    rw [if_neg (not_not_intro hw)]
    simp [List.insertionSort, List.orderedInsert]
  · intro hd
    have hw : ¬ (s ≤ parseDate entry.date ∧ parseDate entry.date ≤ endOfWeekFromStart s) := by
      rw [hd]
      unfold endOfWeekFromStart MS_PER_DAY
      omega
    unfold mealGroups
    simp only [List.foldl_cons, List.foldl_nil]
    rw [if_pos hw]
    simp [List.insertionSort]

/-- C8 witness: both boundary cases evaluated with concrete date parsers. -/
theorem mealGroups_window_boundary_witness :
    ((fun (_ : String) => (518400000 : ℤ)) c1entry.date = 0 + 6 * MS_PER_DAY) ∧
    (mealGroups eqCollation (fun _ => 518400000) [c1recipe] [c1entry] 0
        (endOfWeekFromStart 0)).map (fun g => g.id) = [getMealGroupId c1entry] ∧
    ((fun (_ : String) => (604800000 : ℤ)) c1entry.date = 0 + 7 * MS_PER_DAY) ∧
    mealGroups eqCollation (fun _ => 604800000) [c1recipe] [c1entry] 0
      (endOfWeekFromStart 0) = [] :=
  ⟨by decide,
   (mealGroups_window_boundary eqCollation (fun _ => 518400000) 0 c1entry c1recipe rfl).1
     (by decide),
   by decide,
   (mealGroups_window_boundary eqCollation (fun _ => 604800000) 0 c1entry c1recipe rfl).2
     (by decide)⟩

/-- C1 counterexample: for a resolved recipe with `baseServings = -1 ≤ 0`
(one ingredient of amount 3, entry of 2 servings) the aggregator performs
the division `2 / (-1)` and produces the scaled amount `-6`, not the
resolved raw amount `resolveIngredientAmount 3 = 3` that a scaling factor
of 1 would give. -/
theorem mealGroups_nonpositive_baseServings_counterexample :
    (mealGroups eqCollation (fun _ => 0) [c1recipe] [c1entry] 0 (endOfWeekFromStart 0)).map
        (fun g => g.ingredients.map (fun i => i.amount)) = [[(-6 : ℚ)]] ∧
    (-6 : ℚ) ≠ resolveIngredientAmount 3 := by
  constructor
  · have hw : (0 : ℤ) ≤ (fun (_ : String) => (0 : ℤ)) c1entry.date ∧
        ((fun (_ : String) => (0 : ℤ)) c1entry.date ≤ endOfWeekFromStart 0) := by
      unfold endOfWeekFromStart MS_PER_DAY
      norm_num
    have hlookup : recipeLookup [c1recipe] c1entry.recipeId = some c1recipe := by decide
    unfold mealGroups
    simp only [List.foldl_cons, List.foldl_nil, hlookup]
    rw [if_neg (not_not_intro hw)]
    simp [c1recipe, c1entry, mergeIngredients, insertIngredient, sortIngredients,
      List.insertionSort, List.orderedInsert, resolveIngredientAmount]
    norm_num
  · norm_num [resolveIngredientAmount]

/-- C1 (amended): the aggregator always computes the scaling factor as
`entry.servings / recipe.baseServings`, with no special case for
`baseServings ≤ 0`; the protection lives one layer down, in
`normalizeRecipe`, which replaces a missing, non-numeric or non-positive
persisted `baseServings` with the default 2, so every normalized recipe has
`baseServings > 0`. -/
theorem mealGroups_scaling_unconditional (cmp : String → String → Ordering)
    (parseDate : String → ℤ) (s : ℤ) (entry : MealPlanEntry) (r : Recipe) (ing : Ingredient)
    (v : Option ℚ)
    (hw : s ≤ parseDate entry.date ∧ parseDate entry.date ≤ endOfWeekFromStart s)
    (hid : r.id = entry.recipeId)
    (hin : r.ingredients = [ing]) :
    (mealGroups cmp parseDate [r] [entry] s (endOfWeekFromStart s)).map
        (fun g => g.ingredients.map (fun i => i.amount)) =
      [[resolveIngredientAmount ing.amount * (entry.servings / r.baseServings)]] ∧
    0 < normalizeBaseServings v := by
  constructor
  · have hlookup : recipeLookup [r] entry.recipeId = some r := by
      simp [recipeLookup, hid]
    unfold mealGroups
    simp only [List.foldl_cons, List.foldl_nil, hlookup]
    rw [if_neg (not_not_intro hw)]
    simp [hin, mergeIngredients, insertIngredient, sortIngredients,
      List.insertionSort, List.orderedInsert]
  · cases v with
    | none => norm_num [normalizeBaseServings]
    | some q =>
        by_cases hq : 0 < q
        · simp [normalizeBaseServings, hq]
        · norm_num [normalizeBaseServings, hq]

/-- C1 witness: the unconditional-division formula and the normalization
guard evaluated at the concrete negative-`baseServings` recipe. -/
theorem mealGroups_scaling_unconditional_witness :
    ((0 : ℤ) ≤ (fun (_ : String) => (0 : ℤ)) c1entry.date ∧
      (fun (_ : String) => (0 : ℤ)) c1entry.date ≤ endOfWeekFromStart 0) ∧
    c1recipe.id = c1entry.recipeId ∧
    c1recipe.ingredients = [{ name := "x", amount := 3, unit := "g" }] ∧
    ((mealGroups eqCollation (fun _ => 0) [c1recipe] [c1entry] 0 (endOfWeekFromStart 0)).map
        (fun g => g.ingredients.map (fun i => i.amount)) =
      [[resolveIngredientAmount ({ name := "x", amount := 3, unit := "g" } : Ingredient).amount *
          (c1entry.servings / c1recipe.baseServings)]] ∧
     0 < normalizeBaseServings (some (-1))) :=
  ⟨⟨by decide, by decide⟩, rfl, rfl,
   mealGroups_scaling_unconditional eqCollation (fun _ => 0) 0 c1entry c1recipe
     { name := "x", amount := 3, unit := "g" } (some (-1)) ⟨by decide, by decide⟩ rfl rfl⟩

/-! ## Snapshot Builder theorems -/

lemma bringItems_inner_skip (st : BringInclusionState) (g : MealGroup)
    (l : List MealIngredient) (hexcl : ∀ i ∈ l, isIngredientNotToBring st g i = true) :
    ∀ acc, l.foldl (fun acc i =>
        if isIngredientNotToBring st g i then acc else addBringItem acc i) acc = acc := by
  induction l with
  | nil => intro acc; rfl
  | cons i l ih =>
      intro acc
      rw [List.foldl_cons, if_pos (hexcl i (by simp))]
      exact ih (fun j hj => hexcl j (by simp [hj])) acc

lemma bringItems_all_excluded (cmp : String → String → Ordering) (groups : List MealGroup)
    (st : BringInclusionState)
    (hexcl : ∀ g ∈ groups, ∀ i ∈ g.ingredients, isIngredientNotToBring st g i = true) :
    bringItems cmp groups st = [] := by
  unfold bringItems
  have houter : ∀ (gs : List MealGroup),
      (∀ g ∈ gs, ∀ i ∈ g.ingredients, isIngredientNotToBring st g i = true) →
      ∀ acc : List (String × BringShareItem),
        gs.foldl (fun acc group => group.ingredients.foldl (fun acc i =>
          if isIngredientNotToBring st group i then acc else addBringItem acc i) acc) acc =
          acc := by
    intro gs
    induction gs with
    | nil => intro _ acc; rfl
    | cons g gs ih =>
        intro h acc
        rw [List.foldl_cons, bringItems_inner_skip st g g.ingredients (h g (by simp)) acc]
        exact ih (fun g' hg' i hi => h g' (by simp [hg']) i hi) acc
  rw [houter groups hexcl []]
  simp [List.insertionSort]

/-- C6: when every ingredient of every meal group is excluded, the
included-items list is empty, the export action fails with the typed
human-readable error, and no payload is ever handed to the external share
collaborator (the emptiness check precedes the publish call). -/
theorem handleSendToBring_empty (cmp : String → String → Ordering) (fmt : ℚ → Nat → String)
    (localizedStart weekStartIso : String) (groups : List MealGroup)
    (st : BringInclusionState)
    (hexcl : ∀ g ∈ groups, ∀ i ∈ g.ingredients, isIngredientNotToBring st g i = true) :
    bringItems cmp groups st = [] ∧
    handleSendToBring cmp fmt "firebase" localizedStart weekStartIso groups st =
      SendOutcome.failed "Er zijn geen ingredienten ingesteld op \x27Naar Bring\x27." ∧
    ∀ payload, handleSendToBring cmp fmt "firebase" localizedStart weekStartIso groups st ≠
      SendOutcome.published payload := by
  have hempty := bringItems_all_excluded cmp groups st hexcl
  refine ⟨hempty, ?_, ?_⟩
  · unfold handleSendToBring
    simp [hempty]
  · intro payload
    unfold handleSendToBring
    simp [hempty]

/-- C6 witness: the failure evaluated on a concrete fully-excluded week. -/
theorem handleSendToBring_empty_witness :
    isIngredientNotToBring stGroup1Excluded wGroup1 wIngA = true ∧
    bringItems eqCollation [wGroup1] stGroup1Excluded = [] ∧
    handleSendToBring eqCollation (fun _ _ => "") "firebase" "d" "iso" [wGroup1]
        stGroup1Excluded =
      SendOutcome.failed "Er zijn geen ingredienten ingesteld op \x27Naar Bring\x27." :=
  have T := handleSendToBring_empty eqCollation (fun _ _ => "") "d" "iso" [wGroup1]
    stGroup1Excluded (by decide)
  ⟨by decide, T.1, T.2.1⟩

/-! ## Merge-by-key lemmas -/

lemma updAmount_key (K : String) (d : ℚ) (m : MealIngredient) :
    (updAmount K d m).normalizedKey = m.normalizedKey := by
  unfold updAmount
  split <;> rfl

lemma updAmount_id (K : String) (d : ℚ) (m : MealIngredient) :
    (updAmount K d m).id = m.id := by
  unfold updAmount
  split <;> rfl

lemma updAmount_amount (K : String) (d : ℚ) (m : MealIngredient) :
    (updAmount K d m).amount = m.amount + (if m.normalizedKey == K then d else 0) := by
  unfold updAmount
  split <;> simp_all

lemma keyCount_cons (m : MealIngredient) (l : List MealIngredient) (k : String) :
    keyCount (m :: l) k = keyCount l k + (if m.normalizedKey == k then 1 else 0) := by
  simp only [keyCount, List.filter_cons]
  split <;> simp [Nat.add_comm]

lemma keyAmount_cons (m : MealIngredient) (l : List MealIngredient) (k : String) :
    keyAmount (m :: l) k = keyAmount l k + (if m.normalizedKey == k then m.amount else 0) := by
  simp only [keyAmount, List.filter_cons]
  split <;> simp [add_comm]

lemma keyCount_map_upd (K : String) (d : ℚ) (l : List MealIngredient) (k : String) :
    keyCount (l.map (updAmount K d)) k = keyCount l k := by
  induction l with
  | nil => rfl
  | cons m l ih =>
      rw [List.map_cons, keyCount_cons, keyCount_cons, ih, updAmount_key]

lemma keyAmount_map_upd (K : String) (d : ℚ) (l : List MealIngredient) (k : String) :
    keyAmount (l.map (updAmount K d)) k =
      keyAmount l k + (if K = k then (keyCount l k : ℚ) * d else 0) := by
  induction l with
  | nil => simp [keyAmount, keyCount]
  | cons m l ih =>
      rw [List.map_cons, keyAmount_cons, keyAmount_cons, keyCount_cons, ih, updAmount_key,
        updAmount_amount]
      by_cases h1 : m.normalizedKey = k <;> by_cases h2 : K = k
      · have h3 : m.normalizedKey = K := by rw [h1, h2]
        simp [h1, h2, h3]
        ring
      · have h2' : ¬ k = K := fun h => h2 h.symm
        have h3 : ¬ m.normalizedKey = K := by rw [h1]; exact h2'
        simp [h1, h2, h2', h3]
      · simp [h1, h2]
      · simp [h1, h2]

lemma keyCount_pos_iff_any (l : List MealIngredient) (k : String) :
    (l.any (fun m => m.normalizedKey == k)) = true ↔ 0 < keyCount l k := by
  unfold keyCount
  rw [← List.countP_eq_length_filter, List.countP_pos_iff, List.any_eq_true]

lemma keyCount_append_single (acc : List MealIngredient) (m : MealIngredient) (k : String) :
    keyCount (acc ++ [m]) k = keyCount acc k + (if m.normalizedKey == k then 1 else 0) := by
  simp only [keyCount, List.filter_append, List.filter_cons, List.filter_nil]
  split <;> simp

lemma keyAmount_append_single (acc : List MealIngredient) (m : MealIngredient) (k : String) :
    keyAmount (acc ++ [m]) k = keyAmount acc k + (if m.normalizedKey == k then m.amount else 0) := by
  simp only [keyAmount, List.filter_append, List.filter_cons, List.filter_nil]
  split <;> simp

lemma insertIngredient_keyCount (gid : String) (sc : ℚ) (acc : List MealIngredient)
    (ing : Ingredient) (k : String) :
    keyCount (insertIngredient gid sc acc ing) k =
      if getNormalizedIngredientKey ing = k ∧ keyCount acc k = 0
      then keyCount acc k + 1 else keyCount acc k := by
  simp only [insertIngredient]
  by_cases hany : (acc.any (fun m => m.normalizedKey == getNormalizedIngredientKey ing)) = true
  · rw [if_pos hany, keyCount_map_upd]
    have hpos := (keyCount_pos_iff_any acc (getNormalizedIngredientKey ing)).mp hany
    rw [if_neg]
    rintro ⟨hk, h0⟩
    rw [hk] at hpos
    omega
  · rw [if_neg hany]
    have h0 : keyCount acc (getNormalizedIngredientKey ing) = 0 := by
      by_contra h
      exact hany ((keyCount_pos_iff_any acc _).mpr (Nat.pos_of_ne_zero h))
    rw [keyCount_append_single]
    by_cases hk : getNormalizedIngredientKey ing = k
    · subst hk
      simp [h0]
    · have hbeq : (getNormalizedIngredientKey ing == k) = false := by simp [hk]
      simp [hbeq, hk]

lemma insertIngredient_keyAmount (gid : String) (sc : ℚ) (acc : List MealIngredient)
    (ing : Ingredient) (k : String)
    (hle : keyCount acc (getNormalizedIngredientKey ing) ≤ 1) :
    keyAmount (insertIngredient gid sc acc ing) k =
      keyAmount acc k +
        (if getNormalizedIngredientKey ing = k
         then resolveIngredientAmount ing.amount * sc else 0) := by
  simp only [insertIngredient]
  by_cases hany : (acc.any (fun m => m.normalizedKey == getNormalizedIngredientKey ing)) = true
  · rw [if_pos hany, keyAmount_map_upd]
    have hpos := (keyCount_pos_iff_any acc (getNormalizedIngredientKey ing)).mp hany
    have hone : keyCount acc (getNormalizedIngredientKey ing) = 1 := by omega
    by_cases hk : getNormalizedIngredientKey ing = k
    · rw [if_pos hk, if_pos hk, ← hk, hone]
      push_cast
      ring
    · rw [if_neg hk, if_neg hk]
  · rw [if_neg hany, keyAmount_append_single]
    by_cases hk : getNormalizedIngredientKey ing = k
    · subst hk
      simp
    · have hbeq : (getNormalizedIngredientKey ing == k) = false := by simp [hk]
      simp [hbeq, hk]

lemma insertIngredient_id (gid : String) (sc : ℚ) (acc : List MealIngredient) (ing : Ingredient)
    (hacc : ∀ m ∈ acc, m.id = getMealIngredientId gid m.normalizedKey) :
    ∀ m ∈ insertIngredient gid sc acc ing, m.id = getMealIngredientId gid m.normalizedKey := by
  simp only [insertIngredient]
  by_cases hany : (acc.any (fun m => m.normalizedKey == getNormalizedIngredientKey ing)) = true
  · rw [if_pos hany]
    intro m hm
    obtain ⟨m', hm', rfl⟩ := List.mem_map.mp hm
    rw [updAmount_id, updAmount_key]
    exact hacc m' hm'
  · rw [if_neg hany]
    intro m hm
    rcases List.mem_append.mp hm with h | h
    · exact hacc m h
    · simp only [List.mem_singleton] at h
      subst h
      rfl

lemma foldl_insertIngredient_spec (gid : String) (sc : ℚ) (l : List Ingredient) :
    ∀ acc : List MealIngredient, (∀ k', keyCount acc k' ≤ 1) →
      (∀ k', keyCount (l.foldl (insertIngredient gid sc) acc) k' ≤ 1) ∧
      (∀ k', keyCount (l.foldl (insertIngredient gid sc) acc) k' =
        if keyCount acc k' = 0 ∧ l.any (fun i => getNormalizedIngredientKey i == k') = true
        then 1 else keyCount acc k') ∧
      (∀ k', keyAmount (l.foldl (insertIngredient gid sc) acc) k' =
        keyAmount acc k' + scaledContribution sc l k') := by
  induction l with
  | nil =>
      intro acc hinv
      refine ⟨hinv, fun k' => ?_, fun k' => ?_⟩
      · simp
      · simp [scaledContribution, keyAmount]
  | cons i l ih =>
      intro acc hinv
      simp only [List.foldl_cons]
      have hinv' : ∀ k', keyCount (insertIngredient gid sc acc i) k' ≤ 1 := by
        intro k'
        rw [insertIngredient_keyCount]
        split
        · next h => omega
        · exact hinv k'
      obtain ⟨ihInv, ihC, ihA⟩ := ih (insertIngredient gid sc acc i) hinv'
      refine ⟨ihInv, fun k' => ?_, fun k' => ?_⟩
      · rw [ihC k', insertIngredient_keyCount]
        by_cases h1 : getNormalizedIngredientKey i = k'
        · subst h1
          by_cases h2 : keyCount acc (getNormalizedIngredientKey i) = 0
          · simp [h2]
          · simp [h2, List.any_cons]
        · have hbeq : (getNormalizedIngredientKey i == k') = false := by simp [h1]
          simp [h1, hbeq, List.any_cons]
      · rw [ihA k', insertIngredient_keyAmount gid sc acc i k' (hinv _)]
        have hcontrib : scaledContribution sc (i :: l) k' =
            (if getNormalizedIngredientKey i = k'
             then resolveIngredientAmount i.amount * sc else 0) + scaledContribution sc l k' := by
          by_cases h1 : getNormalizedIngredientKey i = k'
          · have hbeq : (getNormalizedIngredientKey i == k') = true := by simp [h1]
            simp [scaledContribution, List.filter_cons, hbeq, h1]
          · have hbeq : (getNormalizedIngredientKey i == k') = false := by simp [h1]
            simp [scaledContribution, List.filter_cons, hbeq, h1]
        rw [hcontrib]
        ring

/-- C7: within one meal group, contributions are merged by the normalized
key `lowercase(trim(name)) ++ "::" ++ lowercase(trim(unit))`: for every
key, the merged ingredient list of `mealGroups` carries at most one entry
with that key — exactly one when some contribution has the key — whose
amount is the sum of the scaled contributions with that key, and whose
derived id is `groupId::normalizedKey`. -/
theorem mergeIngredients_merges_by_key (groupId : String) (scaling : ℚ) (l : List Ingredient)
    (k : String) :
    keyCount (mergeIngredients groupId scaling l) k =
      (if l.any (fun i => getNormalizedIngredientKey i == k) then 1 else 0) ∧
    keyAmount (mergeIngredients groupId scaling l) k = scaledContribution scaling l k ∧
    (∀ m ∈ mergeIngredients groupId scaling l, m.id = getMealIngredientId groupId m.normalizedKey) ∧
    getNormalizedIngredientKey =
      fun i => jsTrim (jsToLower i.name) ++ "::" ++ jsTrim (jsToLower i.unit) := by
  have hbase : ∀ k', keyCount ([] : List MealIngredient) k' ≤ 1 := by
    intro k'
    simp [keyCount]
  obtain ⟨_, hC, hA⟩ := foldl_insertIngredient_spec groupId scaling l [] hbase
  refine ⟨?_, ?_, ?_, rfl⟩
  · rw [mergeIngredients, hC k]
    simp [keyCount]
  · rw [mergeIngredients, hA k]
    simp [keyAmount]
  · have : ∀ (ll : List Ingredient) (acc : List MealIngredient),
        (∀ m ∈ acc, m.id = getMealIngredientId groupId m.normalizedKey) →
        ∀ m ∈ ll.foldl (insertIngredient groupId scaling) acc,
          m.id = getMealIngredientId groupId m.normalizedKey := by
      intro ll
      induction ll with
      | nil => intro acc hacc; exact hacc
      | cons i ll ih =>
          intro acc hacc
          rw [List.foldl_cons]
          exact ih _ (insertIngredient_id groupId scaling acc i hacc)
    exact this l [] (by simp)

/-- C7 witness: the case-different contributions "ui"/"Ui" with unit
"stuk" merge into a single entry of summed amount 3. -/
theorem mergeIngredients_merges_by_key_witness :
    keyCount (mergeIngredients "g" 1 [ingUiLower, ingUiUpper])
      (getNormalizedIngredientKey ingUiLower) = 1 ∧
    keyAmount (mergeIngredients "g" 1 [ingUiLower, ingUiUpper])
      (getNormalizedIngredientKey ingUiLower) = 3 := by
  have T := mergeIngredients_merges_by_key "g" 1 [ingUiLower, ingUiUpper]
    (getNormalizedIngredientKey ingUiLower)
  constructor
  · rw [T.1]
    decide
  · rw [T.2.1]
    have hf : [ingUiLower, ingUiUpper].filter
        (fun i => getNormalizedIngredientKey i == getNormalizedIngredientKey ingUiLower) =
        [ingUiLower, ingUiUpper] := by decide
    simp only [scaledContribution, hf]
    norm_num [resolveIngredientAmount, ingUiLower, ingUiUpper]
